import Mathlib

/-!
Verification of the ASH shell (src/ash/src/main.rs) against its specification.

The shell's handlers are thin wrappers over `std::fs` calls.  We embed them
shallowly: the ambient filesystem becomes an explicit value of type `Fs`
(an association list from path strings to nodes, with the hierarchy expressed
through `/`-separated path prefixes), the `std::fs` calls become functions on
`Fs` returning `Except OsErr`, and each handler becomes a Lean function that
takes its argument list and the filesystem and returns the handler's
`ShellResult` outcome together with the updated filesystem and/or the text it
printed to stdout.  OS failure modes that depend on state not modelled here
(permissions, races, hardware errors) are abstracted away: an `std::fs` call
in the model fails exactly when the modelled filesystem state makes the
underlying syscall fail on a healthy POSIX system.
-/

namespace Ash

/-- Underlying OS-level I/O error kinds relevant to the modelled `std::fs`
calls (the payload of Rust's `io::Error` as far as the shell observes it). -/
inductive OsErr
  | notFound (p : String)
  | dirNotEmpty (p : String)
  | alreadyExists (p : String)
  | isDir (p : String)
  | notDir (p : String)
  deriving DecidableEq, Repr

/-- The shell's structured error type, mirroring `enum ShellError` in
src/ash/src/main.rs lines 14-33.  `ioError` embeds a wrapped `io::Error`
(the `Io(#[from] io::Error)` variant). -/
inductive ShellError
  | ioError (e : OsErr)
  | InvalidArgument (msg : String)
  | MissingArguments (arg : String)
  | CommandNotFound (s : String)
  | FileNotFound (p : String)
  | IsDirectory (p : String)
  deriving DecidableEq, Repr

/-- A filesystem node: a regular file with its content, or a directory.
Directory children are not stored in the node; they are the entries whose
path extends the directory's path by one `/`-separated component. -/
inductive FsNode
  | file (content : String)
  | dir
  deriving DecidableEq, Repr

/-- `true` exactly on directory nodes (Rust's `metadata.is_dir()`). -/
def FsNode.isDirNode : FsNode → Bool
  | .file _ => false
  | .dir => true

/-- The modelled filesystem: `entries` associates each existing path (a
Unicode string) with its node; `badNames` records, per directory path, opaque
identifiers of directory children whose OS-level names are not valid Unicode
(such entries exist on real filesystems and are observable through
`read_dir`, but are not addressable by any `String` path). -/
structure Fs where
  entries : List (String × FsNode)
  badNames : List (String × Nat)
  deriving DecidableEq, Repr

/-- Is `pre` a prefix of `s` (on character lists)? -/
def listIsPre : List Char → List Char → Bool
  | [], _ => true
  | _ :: _, [] => false
  | c :: cs, d :: ds => c == d && listIsPre cs ds

/-- Does `s` contain `pat` starting at some position (literal substring,
case-sensitive) — the semantics of Rust's `str::contains` with a string
pattern. -/
def listHasSub (pat : List Char) : List Char → Bool
  | [] => pat.isEmpty
  | c :: rest => listIsPre pat (c :: rest) || listHasSub pat rest

/-- Rust's `line.contains(pattern)`: literal, case-sensitive substring test. -/
def strContainsSub (s pat : String) : Bool :=
  listHasSub pat.data s.data

/-- `q` lies strictly below directory path `p` in the hierarchy, i.e. `q`
starts with `p ++ "/"`. -/
def isUnder (p q : String) : Bool :=
  listIsPre (p ++ "/").data q.data

/-- Path lookup (what `fs::metadata`/`Path::exists` consult). -/
def fsLookup (fs : Fs) (p : String) : Option FsNode :=
  fs.entries.lookup p

/-- Remove the entry at exactly path `p`. -/
def fsRemove (fs : Fs) (p : String) : Fs :=
  { fs with entries := fs.entries.filter (fun e => !(e.1 == p)) }

/-- Insert or overwrite the entry at path `p`. -/
def fsInsert (fs : Fs) (p : String) (n : FsNode) : Fs :=
  { fs with entries := (p, n) :: fs.entries.filter (fun e => !(e.1 == p)) }

/-- Directory `p` has at least one child (an entry strictly under it, or a
non-Unicode-named child). -/
def dirNonEmpty (fs : Fs) (p : String) : Bool :=
  fs.entries.any (fun e => isUnder p e.1) || fs.badNames.any (fun b => b.1 == p)

/-- Model of `fs::metadata`: the node at the path, or the OS not-found
error. -/
def osMetadata (fs : Fs) (p : String) : Except OsErr FsNode :=
  match fsLookup fs p with
  | some n => .ok n
  | none => .error (.notFound p)

/-- Model of `fs::read_to_string`: content of a regular file; reading a
directory fails with the OS is-a-directory error. -/
def osReadToString (fs : Fs) (p : String) : Except OsErr String :=
  match fsLookup fs p with
  | some (.file c) => .ok c
  | some .dir => .error (.isDir p)
  | none => .error (.notFound p)

/-- Model of `fs::create_dir` (non-recursive): fails if the path already
exists, otherwise adds an empty directory. -/
def osCreateDir (fs : Fs) (p : String) : Except OsErr Fs :=
  match fsLookup fs p with
  | some _ => .error (.alreadyExists p)
  | none => .ok (fsInsert fs p .dir)

/-- Model of `fs::File::create`: creating over a directory fails; otherwise
the file is created, truncated to empty if it existed. -/
def osFileCreate (fs : Fs) (p : String) : Except OsErr Fs :=
  match fsLookup fs p with
  | some .dir => .error (.isDir p)
  | _ => .ok (fsInsert fs p (.file ""))

/-- Model of `fs::remove_file` on an existing regular file. -/
def osRemoveFile (fs : Fs) (p : String) : Except OsErr Fs :=
  .ok (fsRemove fs p)

/-- Model of `fs::remove_dir` (non-recursive): fails with the OS
directory-not-empty error when the directory has any child. -/
def osRemoveDir (fs : Fs) (p : String) : Except OsErr Fs :=
  if dirNonEmpty fs p then .error (.dirNotEmpty p) else .ok (fsRemove fs p)

/-- Model of `fs::remove_dir_all`: removes the directory and every entry
below it (including non-Unicode-named children). -/
def osRemoveDirAll (fs : Fs) (p : String) : Fs :=
  { entries := fs.entries.filter (fun e => !(e.1 == p) && !(isUnder p e.1)),
    badNames := fs.badNames.filter (fun b => !(b.1 == p) && !(isUnder p b.1)) }

/-- Model of `fs::copy src dest` for an existing source: copying a directory
fails (EISDIR); copying a file onto a directory path fails; otherwise the
destination is created/overwritten with the source's content. -/
def osCopy (fs : Fs) (src dest : String) : Except OsErr Fs :=
  match fsLookup fs src with
  | some .dir => .error (.isDir src)
  | some (.file c) =>
    match fsLookup fs dest with
    | some .dir => .error (.isDir dest)
    | _ => .ok (fsInsert fs dest (.file c))
  | none => .error (.notFound src)

/-- Model of `fs::rename src dest` for an existing source (simple file/dir
move; overwriting an existing directory destination fails). -/
def osRename (fs : Fs) (src dest : String) : Except OsErr Fs :=
  match fsLookup fs src with
  | some n =>
    match fsLookup fs dest with
    | some .dir => .error (.isDir dest)
    | _ => .ok (fsInsert (fsRemove fs src) dest n)
  | none => .error (.notFound src)

/-- A directory entry name as produced by `read_dir`: either a valid Unicode
name (convertible by `OsString::into_string`) or an opaque non-Unicode name
identified by a tag. -/
inductive OsName
  | valid (s : String)
  | invalid (id : Nat)
  deriving DecidableEq, Repr

/-- If `q` is a direct child path of directory `p` (`q = p ++ "/" ++ name`
with `name` free of `/`), return the child's name. -/
def childNameOf (p q : String) : Option String :=
  let pd := (p ++ "/").data
  if listIsPre pd q.data then
    let rest := q.data.drop pd.length
    if rest.contains '/' then none else some (String.mk rest)
  else none

/-- Model of `fs::read_dir p`: the list of entry names of directory `p`
(valid-Unicode children in entry order, then non-Unicode-named children);
fails with the OS error when `p` is missing or not a directory. -/
def osReadDir (fs : Fs) (p : String) : Except OsErr (List OsName) :=
  match fsLookup fs p with
  | some .dir =>
    .ok ((fs.entries.filterMap (fun e => (childNameOf p e.1).map OsName.valid))
      ++ (fs.badNames.filterMap (fun b => if b.1 == p then some (OsName.invalid b.2) else none)))
  | some (.file _) => .error (.notDir p)
  | none => .error (.notFound p)

/-- The ambient process state the `cd` handler touches: the filesystem, the
current working directory, and the value of the `HOME` environment variable
(`none` when unset). -/
structure ShellState where
  fs : Fs
  cwd : String
  home : Option String
  deriving DecidableEq, Repr

/-- Model of `env::set_current_dir`: succeeds only on an existing
directory; on a regular file the OS rejects with ENOTDIR, on a missing path
with ENOENT. -/
def osSetCurrentDir (st : ShellState) (p : String) : Except OsErr ShellState :=
  match fsLookup st.fs p with
  | some .dir => .ok { st with cwd := p }
  | some (.file _) => .error (.notDir p)
  | none => .error (.notFound p)

/-- The `cd` handler (src/ash/src/main.rs lines 179-194): `args.first()`
defaulted to `""`; an empty path is replaced by `$HOME` or
`InvalidArgument`; a non-existing path is `FileNotFound`; then
`env::set_current_dir` with `?`-wrapped OS errors. -/
def cd (args : List String) (st : ShellState) : Except ShellError Unit × ShellState :=
  let path0 := args.headD ""
  let pathR : Except ShellError String :=
    if path0.isEmpty then
      match st.home with
      | some h => .ok h
      | none => .error (.InvalidArgument "Home directory not found")
    else .ok path0
  match pathR with
  | .error e => (.error e, st)
  | .ok path =>
    if (fsLookup st.fs path).isNone then
      (.error (.FileNotFound path), st)
    else
      match osSetCurrentDir st path with
      | .error e => (.error (.ioError e), st)
      | .ok st' => (.ok (), st')

/-- The entry-printing loop of `ls` (lines 220-225): each entry's
`file_name().into_string()` either prints the name or aborts with
`InvalidArgument "Invalid filename"`.  Returns the handler result and the
names printed before stopping. -/
def lsGo : List OsName → Except ShellError Unit × List String
  | [] => (.ok (), [])
  | .valid s :: rest =>
    let (r, out) := lsGo rest
    (r, s :: out)
  | .invalid _ :: _ => (.error (.InvalidArgument "Invalid filename"), [])

/-- The `ls` handler (lines 216-228): path defaults to `"."`; `read_dir`
errors propagate as wrapped I/O errors; then the printing loop. -/
def ls (args : List String) (fs : Fs) : Except ShellError Unit × List String :=
  let path := args.headD "."
  match osReadDir fs path with
  | .error e => (.error (.ioError e), [])
  | .ok names => lsGo names

/-- The per-file loop of `cat` (lines 235-243): `fs::metadata` with `?`,
the `is_dir` check raising `IsDirectory`, then `read_to_string` with `?`
and `print!` of the content.  Returns the result and the contents printed
(in order) before stopping. -/
def catGo (fs : Fs) : List String → Except ShellError Unit × List String
  | [] => (.ok (), [])
  | f :: rest =>
    match osMetadata fs f with
    | .error e => (.error (.ioError e), [])
    | .ok n =>
      if n.isDirNode then (.error (.IsDirectory f), [])
      else
        match osReadToString fs f with
        | .error e => (.error (.ioError e), [])
        | .ok c =>
          let (r, out) := catGo fs rest
          (r, c :: out)

/-- The `cat` handler (lines 230-245). -/
def cat (args : List String) (fs : Fs) : Except ShellError Unit × List String :=
  if args.isEmpty then (.error (.MissingArguments "file"), [])
  else catGo fs args

/-- The per-directory loop of `mkdir` (lines 252-254): `fs::create_dir`
with `?`. -/
def mkdirGo : List String → Fs → Except ShellError Unit × Fs
  | [], fs => (.ok (), fs)
  | d :: rest, fs =>
    match osCreateDir fs d with
    | .error e => (.error (.ioError e), fs)
    | .ok fs' => mkdirGo rest fs'

/-- The `mkdir` handler (lines 247-256). -/
def mkdir (args : List String) (fs : Fs) : Except ShellError Unit × Fs :=
  if args.isEmpty then (.error (.MissingArguments "directory name"), fs)
  else mkdirGo args fs

/-- The per-file loop of `touch` (lines 263-265): `fs::File::create` with
`?`. -/
def touchGo : List String → Fs → Except ShellError Unit × Fs
  | [], fs => (.ok (), fs)
  | f :: rest, fs =>
    match osFileCreate fs f with
    | .error e => (.error (.ioError e), fs)
    | .ok fs' => touchGo rest fs'

/-- The `touch` handler (lines 258-267). -/
def touch (args : List String) (fs : Fs) : Except ShellError Unit × Fs :=
  if args.isEmpty then (.error (.MissingArguments "file name"), fs)
  else touchGo args fs

/-- The per-path loop of `rm` (lines 274-291).  `allArgs` is the full
original argument list, consulted by `args.contains(&"-r")`.  A literal
`"-r"` element is skipped; `fs::metadata` failure is mapped to
`FileNotFound`; directories go through `remove_dir_all` when `"-r"` is
present anywhere in `allArgs`, else `remove_dir`; files through
`remove_file`; OS errors of the removal calls are `?`-wrapped. -/
def rmGo (allArgs : List String) : List String → Fs → Except ShellError Unit × Fs
  | [], fs => (.ok (), fs)
  | p :: rest, fs =>
    if p == "-r" then rmGo allArgs rest fs
    else
      match osMetadata fs p with
      | .error _ => (.error (.FileNotFound p), fs)
      | .ok n =>
        if n.isDirNode then
          if allArgs.contains "-r" then
            rmGo allArgs rest (osRemoveDirAll fs p)
          else
            match osRemoveDir fs p with
            | .error e => (.error (.ioError e), fs)
            | .ok fs' => rmGo allArgs rest fs'
        else
          match osRemoveFile fs p with
          | .error e => (.error (.ioError e), fs)
          | .ok fs' => rmGo allArgs rest fs'

/-- The `rm` handler (lines 269-293). -/
def rm (args : List String) (fs : Fs) : Except ShellError Unit × Fs :=
  if args.isEmpty then (.error (.MissingArguments "file or directory"), fs)
  else rmGo args args fs

/-- The `cp` handler (lines 295-309): needs two arguments
(`args[0]`, `args[1]`; extra arguments unread), pre-checks source existence
(`Path::new(src).exists()`) raising `FileNotFound`, then `fs::copy` with
`?`. -/
def cp (args : List String) (fs : Fs) : Except ShellError Unit × Fs :=
  match args with
  | src :: dest :: _ =>
    if (fsLookup fs src).isNone then (.error (.FileNotFound src), fs)
    else
      match osCopy fs src dest with
      | .error e => (.error (.ioError e), fs)
      | .ok fs' => (.ok (), fs')
  | _ => (.error (.MissingArguments "source and destination"), fs)

/-- The `mv` handler (lines 311-325): same argument shape as `cp`, with
`fs::rename`. -/
def mv (args : List String) (fs : Fs) : Except ShellError Unit × Fs :=
  match args with
  | src :: dest :: _ =>
    if (fsLookup fs src).isNone then (.error (.FileNotFound src), fs)
    else
      match osRename fs src dest with
      | .error e => (.error (.ioError e), fs)
      | .ok fs' => (.ok (), fs')
  | _ => (.error (.MissingArguments "source and destination"), fs)

/-- Strip one trailing carriage return from a reversed character list and
restore the forward order (the `\r` stripping of `BufRead::lines`). -/
def unrevDropCr : List Char → List Char
  | '\r' :: rest => rest.reverse
  | l => l.reverse

/-- Split file content into lines with the semantics of Rust's
`BufRead::lines`: lines are terminated by `\n` (a trailing `\r` before the
`\n` is stripped); a final unterminated fragment is a line; empty trailing
data yields no extra line.  `acc` holds the current line reversed. -/
def rustLinesGo (acc : List Char) : List Char → List String
  | [] => if acc.isEmpty then [] else [String.mk (unrevDropCr acc)]
  | c :: rest =>
    if c = '\n' then String.mk (unrevDropCr acc) :: rustLinesGo [] rest
    else rustLinesGo (c :: acc) rest

/-- `BufRead::lines` over a whole file content. -/
def rustLines (s : String) : List String :=
  rustLinesGo [] s.data

/-- The line loop of `grep` (lines 340-345): 0-based enumeration `i`,
printing `file ++ ":" ++ (i+1) ++ ": " ++ line` for each line containing the
pattern as a literal substring. -/
def grepGo (file pattern : String) (i : Nat) : List String → List String
  | [] => []
  | line :: rest =>
    if strContainsSub line pattern then
      (file ++ ":" ++ toString (i + 1) ++ ": " ++ line) :: grepGo file pattern (i + 1) rest
    else grepGo file pattern (i + 1) rest

/-- The `grep` handler (lines 327-347): needs two arguments (pattern,
file; extra arguments unread), pre-checks file existence raising
`FileNotFound`, opens the file (reading a directory fails at the first
`line?` with the OS is-a-directory error), and runs the line loop. -/
def grep (args : List String) (fs : Fs) : Except ShellError Unit × List String :=
  match args with
  | pattern :: file :: _ =>
    if (fsLookup fs file).isNone then (.error (.FileNotFound file), [])
    else
      match fsLookup fs file with
      | some (.file c) => (.ok (), grepGo file pattern 0 (rustLines c))
      | some .dir => (.error (.ioError (.isDir file)), [])
      | none => (.error (.FileNotFound file), [])
  | _ => (.error (.MissingArguments "pattern and file"), [])

/-- The default `max_history_size` of rustyline's configuration (used by
`Editor::new()`): at most this many entries are retained. -/
def maxHistorySize : Nat := 100

/-- Models rustyline's `Editor::add_history_entry` under the default
configuration created by `Editor::new()` (src/ash/src/main.rs line 44).
rustyline's default history policy is `HistoryDuplicates::IgnoreConsecutive`
(`history_ignore_dups` defaults to on): a line equal to the most recent
history entry is not added; an empty line is likewise not added (that case
is unreachable from the shell's loop, which skips empty input first).
When an entry is added while the history already holds `max_history_size`
(default 100) entries, the oldest entry is popped from the front before the
new one is pushed at the back. -/
def addHistoryEntry (hist : List String) (line : String) : List String :=
  if line.isEmpty then hist
  else if hist.getLast? == some line then hist
  else if hist.length == maxHistorySize then hist.tail ++ [line]
  else hist ++ [line]

/-- One iteration of the main loop's history handling (lines 53-66): empty
input is skipped (`continue`) before `rl.add_history_entry(&input)`. -/
def processLine (hist : List String) (input : String) : List String :=
  if input.isEmpty then hist else addHistoryEntry hist input

/-- The history evolution across a sequence of entered input lines. -/
def runLines (hist : List String) (inputs : List String) : List String :=
  inputs.foldl processLine hist

/-! ## Helper lemmas -/

/-- The `rm` loop maps every `"-r"` element to `continue`: a run of the loop
over flag-only arguments touches nothing and succeeds. -/
theorem rmGo_all_flags (allArgs : List String) (l : List String) (fs : Fs)
    (h : ∀ a ∈ l, a = "-r") : rmGo allArgs l fs = (.ok (), fs) := by
  induction l with
  | nil => rfl
  | cons a rest ih =>
    have ha : a = "-r" := h a (List.mem_cons_self a rest)
    have hr : ∀ b ∈ rest, b = "-r" := fun b hb => h b (List.mem_cons_of_mem a hb)
    simp [rmGo, ha, ih hr]

/-! ## Claims -/

/-- C1 (counterexample): the claim says `rm ["-r"]` returns a
MissingArguments error; in the code the loop skips the flag and returns
`Ok(())`, deleting nothing. -/
theorem rm_flag_only_returns_ok :
    rm ["-r"] (⟨[], []⟩ : Fs) = (.ok (), (⟨[], []⟩ : Fs)) ∧
    (rm ["-r"] (⟨[], []⟩ : Fs)).1 ≠ .error (.MissingArguments "file or directory") :=
  ⟨rfl, fun h => nomatch h⟩

/-- C1 (amended): `rm` with an empty argument list fails with
`MissingArguments "file or directory"` and performs no deletion; `rm` with a
non-empty argument list in which every element equals `"-r"` returns success
and performs no deletion (the `MissingArguments` check only fires on a
literally empty list). -/
theorem rm_zero_target_args (args : List String) (fs : Fs)
    (h : ∀ a ∈ args, a = "-r") :
    (args = [] → rm args fs = (.error (.MissingArguments "file or directory"), fs)) ∧
    (args ≠ [] → rm args fs = (.ok (), fs)) := by
  constructor
  · rintro rfl
    rfl
  · intro hne
    have he : args.isEmpty = false := by
      cases args with
      | nil => exact absurd rfl hne
      | cons a l => rfl
    simp [rm, he, rmGo_all_flags args args fs h]

/-- C1 witness: the amended statement evaluated at `["-r"]` on the empty
filesystem. -/
theorem rm_zero_target_args_witness :
    rm ["-r"] (⟨[("w", .file "keep")], []⟩ : Fs) =
      (.ok (), (⟨[("w", .file "keep")], []⟩ : Fs)) :=
  (rm_zero_target_args ["-r"] ⟨[("w", .file "keep")], []⟩ (by decide)).2 (by decide)

/-- C5: `"-r"` acts as a modifier anywhere in the argument list and is never
itself a target; `rm` on an empty directory without `"-r"` succeeds
non-recursively; on a non-empty directory without `"-r"` it fails with the
wrapped OS directory-not-empty I/O error; with `"-r"` before or after the
directory it removes the directory recursively; on a missing path it fails
with `FileNotFound`. -/
theorem rm_dir_flag_semantics (fs : Fs) (d : String) (hd : d ≠ "-r") :
    (fsLookup fs d = some .dir → dirNonEmpty fs d = false →
      rm [d] fs = (.ok (), fsRemove fs d)) ∧
    (fsLookup fs d = some .dir → dirNonEmpty fs d = true →
      rm [d] fs = (.error (.ioError (.dirNotEmpty d)), fs)) ∧
    (fsLookup fs d = some .dir →
      rm ["-r", d] fs = (.ok (), osRemoveDirAll fs d) ∧
      rm [d, "-r"] fs = (.ok (), osRemoveDirAll fs d)) ∧
    (fsLookup fs d = none → rm [d] fs = (.error (.FileNotFound d), fs)) := by
  have hbd : (d == "-r") = false := by simp [hd]
  have hdb : ("-r" == d) = false := by simp [Ne.symm hd]
  refine ⟨?_, ?_, ?_, ?_⟩
  · intro hl he
    simp [rm, rmGo, osMetadata, hl, FsNode.isDirNode, hbd, hdb, List.contains,
      List.elem, osRemoveDir, he]
  · intro hl he
    simp [rm, rmGo, osMetadata, hl, FsNode.isDirNode, hbd, hdb, List.contains,
      List.elem, osRemoveDir, he]
  · intro hl
    constructor
    · simp [rm, rmGo, osMetadata, hl, FsNode.isDirNode, hbd, hdb, List.contains,
        List.elem]
    · simp [rm, rmGo, osMetadata, hl, FsNode.isDirNode, hbd, hdb, List.contains,
        List.elem]
  · intro hl
    simp [rm, rmGo, osMetadata, hl, hbd]

/-- C5 witness: the four branches evaluated on concrete filesystems. -/
theorem rm_dir_flag_semantics_witness :
    rm ["d"] (⟨[("d", .dir)], []⟩ : Fs) = (.ok (), fsRemove ⟨[("d", .dir)], []⟩ "d") ∧
    rm ["d"] (⟨[("d", .dir), ("d/x", .file "1")], []⟩ : Fs) =
      (.error (.ioError (.dirNotEmpty "d")), (⟨[("d", .dir), ("d/x", .file "1")], []⟩ : Fs)) ∧
    rm ["-r", "d"] (⟨[("d", .dir), ("d/x", .file "1")], []⟩ : Fs) =
      (.ok (), osRemoveDirAll ⟨[("d", .dir), ("d/x", .file "1")], []⟩ "d") ∧
    rm ["d", "-r"] (⟨[("d", .dir), ("d/x", .file "1")], []⟩ : Fs) =
      (.ok (), osRemoveDirAll ⟨[("d", .dir), ("d/x", .file "1")], []⟩ "d") ∧
    rm ["g"] (⟨[], []⟩ : Fs) = (.error (.FileNotFound "g"), (⟨[], []⟩ : Fs)) := by
  refine ⟨?_, ?_, ?_, ?_, ?_⟩
  · exact (rm_dir_flag_semantics ⟨[("d", .dir)], []⟩ "d" (by decide)).1 rfl rfl
  · exact (rm_dir_flag_semantics ⟨[("d", .dir), ("d/x", .file "1")], []⟩ "d"
      (by decide)).2.1 rfl rfl
  · exact ((rm_dir_flag_semantics ⟨[("d", .dir), ("d/x", .file "1")], []⟩ "d"
      (by decide)).2.2.1 rfl).1
  · exact ((rm_dir_flag_semantics ⟨[("d", .dir), ("d/x", .file "1")], []⟩ "d"
      (by decide)).2.2.1 rfl).2
  · exact (rm_dir_flag_semantics ⟨[], []⟩ "g" (by decide)).2.2.2 rfl

/-- C6: when the source path does not exist, `cp` fails with
`FileNotFound src` and the filesystem — in particular the destination path —
is completely unchanged. -/
theorem cp_missing_source (fs : Fs) (src dest : String) (rest : List String)
    (h : fsLookup fs src = none) :
    cp (src :: dest :: rest) fs = (.error (.FileNotFound src), fs) := by
  simp [cp, h]

/-- C6 witness: copying from a missing source next to an existing
destination file leaves that file exactly as it was. -/
theorem cp_missing_source_witness :
    cp ["s", "t"] (⟨[("t", .file "keep")], []⟩ : Fs) =
      (.error (.FileNotFound "s"), (⟨[("t", .file "keep")], []⟩ : Fs)) :=
  cp_missing_source ⟨[("t", .file "keep")], []⟩ "s" "t" [] rfl

/-- C7: `cd` to a non-existing path fails with `FileNotFound` for that path
and leaves the whole shell state (in particular the working directory)
unchanged; `cd` with no argument when no home directory value is available
fails with `InvalidArgument`. -/
theorem cd_error_atomicity (st : ShellState) (p : String) (rest : List String) :
    (p ≠ "" → fsLookup st.fs p = none →
      cd (p :: rest) st = (.error (.FileNotFound p), st)) ∧
    (st.home = none →
      cd [] st = (.error (.InvalidArgument "Home directory not found"), st)) := by
  constructor
  · intro hp hl
    have he : p.isEmpty = false := by
      rcases h : p.isEmpty with _ | _
      · rfl
      · exact absurd (String.isEmpty_iff p |>.mp h) hp
    simp [cd, List.headD, he, hl]
  · intro hh
    have h0 : "".isEmpty = true := rfl
    simp [cd, List.headD, hh, h0]

/-- C7 witness: both failure branches evaluated on a concrete state. -/
theorem cd_error_atomicity_witness :
    cd ["q"] (⟨⟨[], []⟩, "/", none⟩ : ShellState) =
      (.error (.FileNotFound "q"), (⟨⟨[], []⟩, "/", none⟩ : ShellState)) ∧
    cd [] (⟨⟨[], []⟩, "/", none⟩ : ShellState) =
      (.error (.InvalidArgument "Home directory not found"),
        (⟨⟨[], []⟩, "/", none⟩ : ShellState)) :=
  ⟨(cd_error_atomicity ⟨⟨[], []⟩, "/", none⟩ "q" []).1 (by decide) rfl,
   (cd_error_atomicity ⟨⟨[], []⟩, "/", none⟩ "q" []).2 rfl⟩

/-- C9: trailing arguments beyond the consumed ones are ignored — `cd` reads
only the first argument, and `cp`, `mv`, `grep` only the first two, so
invoking them with extra trailing arguments yields the same result, state
and output as invoking them on the consumed prefix alone. -/
theorem extra_args_ignored (st : ShellState) (fs : Fs) (a b : String)
    (rest : List String) :
    cd (a :: rest) st = cd [a] st ∧
    cp (a :: b :: rest) fs = cp [a, b] fs ∧
    mv (a :: b :: rest) fs = mv [a, b] fs ∧
    grep (a :: b :: rest) fs = grep [a, b] fs :=
  ⟨rfl, rfl, rfl, rfl⟩

/-- Inversion for the metadata model: a successful `fs::metadata` call
returns exactly the node stored at the path. -/
theorem osMetadata_ok {fs : Fs} {p : String} {n : FsNode}
    (h : osMetadata fs p = .ok n) : fsLookup fs p = some n := by
  unfold osMetadata at h
  cases hl : fsLookup fs p with
  | none => rw [hl] at h; exact nomatch h
  | some m => rw [hl] at h; injection h with h; rw [h]

/-- Appending further arguments after a directory argument to the `cat`
loop: once the loop has succeeded on `pre` (printing `out`), reaching a
directory `d` aborts with `IsDirectory d` and prints nothing further. -/
theorem catGo_append_dir (fs : Fs) (d : String) (post : List String)
    (hd : fsLookup fs d = some .dir) :
    ∀ pre out : List String, catGo fs pre = (.ok (), out) →
      catGo fs (pre ++ d :: post) = (.error (.IsDirectory d), out) := by
  intro pre
  induction pre with
  | nil =>
    intro out h
    have hout : out = [] := by
      have : ((.ok (), []) : Except ShellError Unit × List String) = (.ok (), out) := h ▸ rfl
      exact (Prod.mk.injEq _ _ _ _ ▸ this).2.symm
    subst hout
    simp [catGo, osMetadata, hd, FsNode.isDirNode]
  | cons f pre' ih =>
    intro out h
    cases hm : osMetadata fs f with
    | error e => simp [catGo, hm] at h
    | ok n =>
      cases n with
      | dir => simp [catGo, hm, FsNode.isDirNode] at h
      | file c =>
        have hlf : fsLookup fs f = some (.file c) := osMetadata_ok hm
        have hrs : osReadToString fs f = .ok c := by simp [osReadToString, hlf]
        rcases hc : catGo fs pre' with ⟨r, o⟩
        simp [catGo, hm, FsNode.isDirNode, hrs, hc] at h
        obtain ⟨hr, hout⟩ := h
        have hpre' : catGo fs pre' = (.ok (), o) := by rw [hc, hr]
        have hrec := ih o hpre'
        simp [catGo, hm, FsNode.isDirNode, hrs, hrec, hout]

/-- C2 (counterexample): with an earlier file argument, `cat` has already
printed that file's content when it aborts on a directory argument — the
output is not empty, contradicting "prints no content at all". -/
theorem cat_prints_before_directory :
    cat ["a", "d"] (⟨[("a", .file "x"), ("d", .dir)], []⟩ : Fs) =
      (.error (.IsDirectory "d"), ["x"]) ∧
    (cat ["a", "d"] (⟨[("a", .file "x"), ("d", .dir)], []⟩ : Fs)).2 ≠ [] :=
  ⟨rfl, fun h => nomatch h⟩

/-- C2 (amended): `cat` aborts with `IsDirectory d` at the first directory
argument `d`, printing nothing for `d` or any later argument; the contents
of the file arguments preceding `d` have however already been printed (in
particular, when the directory is the first argument, nothing at all is
printed). -/
theorem cat_stops_at_directory (fs : Fs) (pre : List String) (d : String)
    (post : List String) (out : List String)
    (hd : fsLookup fs d = some .dir)
    (hpre : catGo fs pre = (.ok (), out)) :
    cat (pre ++ d :: post) fs = (.error (.IsDirectory d), out) := by
  have hne : (pre ++ d :: post).isEmpty = false := by cases pre <;> rfl
  simp [cat, hne]
  exact catGo_append_dir fs d post hd pre out hpre

/-- C2 witness: two files then a directory then a further argument — the two
file contents are printed, then `IsDirectory` aborts. -/
theorem cat_stops_at_directory_witness :
    cat ["a", "b", "d", "zz"]
      (⟨[("a", .file "x"), ("b", .file "y"), ("d", .dir)], []⟩ : Fs) =
      (.error (.IsDirectory "d"), ["x", "y"]) :=
  cat_stops_at_directory ⟨[("a", .file "x"), ("b", .file "y"), ("d", .dir)], []⟩
    ["a", "b"] "d" ["zz"] ["x", "y"] rfl rfl

/-- The `ls` printing loop can only fail with
`InvalidArgument "Invalid filename"` (on a non-Unicode entry name). -/
theorem lsGo_error : ∀ {names : List OsName} {e : ShellError} {out : List String},
    lsGo names = (.error e, out) → e = .InvalidArgument "Invalid filename" := by
  intro names
  induction names with
  | nil => intro e out h; simp [lsGo] at h
  | cons n rest ih =>
    intro e out h
    cases n with
    | valid s =>
      rcases hr : lsGo rest with ⟨r, o⟩
      simp [lsGo, hr] at h
      obtain ⟨h1, _⟩ := h
      exact ih (by rw [hr, h1])
    | invalid id =>
      simp [lsGo] at h
      exact h.1.symm

/-- C3 (counterexample): a directory containing an entry whose name is not
valid Unicode makes `ls` fail with `InvalidArgument "Invalid filename"`,
which is not a wrapped I/O error. -/
theorem ls_invalid_name_failure :
    ls ["d"] (⟨[("d", .dir)], [("d", 0)]⟩ : Fs) =
      (.error (.InvalidArgument "Invalid filename"), []) ∧
    (∀ oe, (ls ["d"] (⟨[("d", .dir)], [("d", 0)]⟩ : Fs)).1 ≠
      .error (.ioError oe)) :=
  ⟨rfl, fun _ h => nomatch h⟩

/-- C3 (amended): every failure of `ls` is either a wrapped I/O error from
the underlying directory read, or `InvalidArgument "Invalid filename"` for a
directory entry whose name is not valid Unicode; no other error kind is
possible. -/
theorem ls_error_kinds (args : List String) (fs : Fs) (e : ShellError)
    (out : List String) (h : ls args fs = (.error e, out)) :
    (∃ oe, e = .ioError oe) ∨ e = .InvalidArgument "Invalid filename" := by
  simp only [ls] at h
  cases hrd : osReadDir fs (args.headD ".") with
  | error oe =>
    rw [hrd] at h
    simp at h
    exact Or.inl ⟨oe, h.1.symm⟩
  | ok names =>
    rw [hrd] at h
    exact Or.inr (lsGo_error h)

/-- C3 witness: the amended statement evaluated on a read failure (missing
path). -/
theorem ls_error_kinds_witness :
    (∃ oe, ShellError.ioError (.notFound "x") = ShellError.ioError oe) ∨
      ShellError.ioError (.notFound "x") =
        ShellError.InvalidArgument "Invalid filename" :=
  ls_error_kinds ["x"] ⟨[], []⟩ (.ioError (.notFound "x")) [] rfl

/-- C4 (counterexample): the same non-empty line entered twice in a row is
stored once — rustyline's default configuration suppresses an entry equal
to the most recent history entry. -/
theorem history_consecutive_dup_dropped :
    runLines [] ["ls", "ls"] = ["ls"] ∧
    runLines [] ["ls", "ls"] ≠ ["ls", "ls"] :=
  ⟨by decide, by decide⟩

/-- C4 (amended): retained history entries keep chronological order — one
processed input line either leaves the history unchanged, appends the line
at the end, or drops the oldest entry from the front and appends the line
at the end (never any reordering); below the capacity of 100 entries every
non-empty input differing from the most recent entry is appended at the
end; at capacity the oldest entry is evicted from the front and the line
still goes to the end; empty input changes nothing; and a non-empty line
equal to the most recent entry is skipped (consecutive-duplicate
suppression), so entering the same line twice in a row stores exactly one
occurrence. -/
theorem history_order_semantics (h : List String) (s : String) :
    (processLine h s = h ∨ processLine h s = h ++ [s] ∨
      processLine h s = h.tail ++ [s]) ∧
    (s ≠ "" → h.getLast? ≠ some s → h.length < maxHistorySize →
      processLine h s = h ++ [s]) ∧
    (s ≠ "" → h.getLast? ≠ some s → h.length = maxHistorySize →
      processLine h s = h.tail ++ [s]) ∧
    (s = "" → processLine h s = h) ∧
    (s ≠ "" → processLine (processLine h s) s = processLine h s) := by
  refine ⟨?_, ?_, ?_, ?_, ?_⟩
  · by_cases he : s.isEmpty = true
    · exact Or.inl (by simp [processLine, he])
    · by_cases hl : h.getLast? = some s
      · exact Or.inl (by simp [processLine, addHistoryEntry, he, hl])
      · by_cases hn : h.length = maxHistorySize
        · exact Or.inr (Or.inr (by simp [processLine, addHistoryEntry, he, hl, hn]))
        · exact Or.inr (Or.inl (by simp [processLine, addHistoryEntry, he, hl, hn]))
  · intro hs hl hlen
    have he : ¬(s.isEmpty = true) := fun he => hs ((String.isEmpty_iff s).mp he)
    have hn : h.length ≠ maxHistorySize := Nat.ne_of_lt hlen
    simp [processLine, addHistoryEntry, he, hl, hn]
  · intro hs hl hlen
    have he : ¬(s.isEmpty = true) := fun he => hs ((String.isEmpty_iff s).mp he)
    simp [processLine, addHistoryEntry, he, hl, hlen]
  · intro hs
    have he : s.isEmpty = true := (String.isEmpty_iff s).mpr hs
    simp [processLine, he]
  · intro hs
    have he : ¬(s.isEmpty = true) := fun he => hs ((String.isEmpty_iff s).mp he)
    by_cases hl : h.getLast? = some s
    · have h1 : processLine h s = h := by
        simp [processLine, addHistoryEntry, he, hl]
      rw [h1]
      exact h1
    · by_cases hn : h.length = maxHistorySize
      · have h1 : processLine h s = h.tail ++ [s] := by
          simp [processLine, addHistoryEntry, he, hl, hn]
        rw [h1]
        have h2 : (h.tail ++ [s]).getLast? = some s := by
          rw [List.getLast?_append_cons]
          rfl
        simp [processLine, addHistoryEntry, he, h2]
      · have h1 : processLine h s = h ++ [s] := by
          simp [processLine, addHistoryEntry, he, hl, hn]
        rw [h1]
        have h2 : (h ++ [s]).getLast? = some s := by
          rw [List.getLast?_append_cons]
          rfl
        simp [processLine, addHistoryEntry, he, h2]

/-- C4 witness: below capacity a fresh line is appended at the end; at the
capacity of 100 entries the oldest entry is evicted from the front while
the line goes to the end; repeating the line immediately changes
nothing. -/
theorem history_order_semantics_witness :
    processLine ["a"] "b" = ["a"] ++ ["b"] ∧
    processLine (List.replicate 100 "x") "b" =
      (List.replicate 100 "x").tail ++ ["b"] ∧
    processLine (processLine ["a"] "b") "b" = processLine ["a"] "b" :=
  ⟨(history_order_semantics ["a"] "b").2.1 (by decide) (by decide) (by decide),
   (history_order_semantics (List.replicate 100 "x") "b").2.2.1
     (by decide) (by decide) (by decide),
   (history_order_semantics ["a"] "b").2.2.2.2 (by decide)⟩

/-- Formulated from the spec sentence for `grep`: keep every (0-based index,
line) pair whose line contains the pattern as a literal substring, and print
`file:index+1: line` for each, in file order. -/
def grepSpecOut (file pattern : String) (lines : List String) : List String :=
  (lines.enum.filter fun q => strContainsSub q.2 pattern).map
    fun q => file ++ ":" ++ toString (q.1 + 1) ++ ": " ++ q.2

/-- The `grep` loop starting at counter `i` computes exactly the
filter-and-format of the lines enumerated from `i`. -/
theorem grepGo_enumFrom (file pattern : String) :
    ∀ (l : List String) (i : Nat),
      grepGo file pattern i l =
        ((l.enumFrom i).filter fun q => strContainsSub q.2 pattern).map
          fun q => file ++ ":" ++ toString (q.1 + 1) ++ ": " ++ q.2 := by
  intro l
  induction l with
  | nil => intro i; rfl
  | cons line rest ih =>
    intro i
    by_cases hc : strContainsSub line pattern = true
    · simp [grepGo, List.enumFrom, hc, ih]
    · simp [grepGo, List.enumFrom, hc, ih]

/-- C8: on an existing regular file, `grep` succeeds and prints exactly one
line `file:n: line` for each 1-based line number `n` whose line contains
the pattern as a case-sensitive literal substring, in file order, and
nothing for the other lines; in particular, on a file with lines
`["foo bar", "baz", "foobar"]` and pattern `"foo"` it prints exactly
`file.txt:1: foo bar` and `file.txt:3: foobar`. -/
theorem grep_literal_substring_lines (fs : Fs) (pattern file c : String)
    (rest : List String) (h : fsLookup fs file = some (.file c)) :
    grep (pattern :: file :: rest) fs =
      (.ok (), grepSpecOut file pattern (rustLines c)) ∧
    grep ["foo", "file.txt"]
      (⟨[("file.txt", .file "foo bar\nbaz\nfoobar")], []⟩ : Fs) =
      (.ok (), ["file.txt:1: foo bar", "file.txt:3: foobar"]) := by
  constructor
  · simp [grep, h, grepSpecOut, List.enum, grepGo_enumFrom]
  · rfl

/-- C8 witness: the general statement evaluated on the spec's example
file. -/
theorem grep_literal_substring_lines_witness :
    grep ["foo", "file.txt"]
      (⟨[("file.txt", .file "foo bar\nbaz\nfoobar")], []⟩ : Fs) =
      (.ok (),
        grepSpecOut "file.txt" "foo" (rustLines "foo bar\nbaz\nfoobar")) :=
  (grep_literal_substring_lines ⟨[("file.txt", .file "foo bar\nbaz\nfoobar")], []⟩
    "foo" "file.txt" "foo bar\nbaz\nfoobar" [] rfl).1

/-- Sequential decomposition of the `mkdir` loop: running it on `xs ++ ys`
is running it on `xs` and, only if that succeeded, continuing with `ys` from
the reached state; a failure in `xs` stops with the state reached so far. -/
theorem mkdirGo_append (xs ys : List String) (fs : Fs) :
    mkdirGo (xs ++ ys) fs =
      match mkdirGo xs fs with
      | (.ok _, fs') => mkdirGo ys fs'
      | (.error e, fs') => (.error e, fs') := by
  induction xs generalizing fs with
  | nil => simp [mkdirGo]
  | cons d rest ih =>
    cases hc : osCreateDir fs d with
    | error e => simp [mkdirGo, hc]
    | ok fs' => simp [mkdirGo, hc, ih]

/-- Sequential decomposition of the `touch` loop (same shape as `mkdir`). -/
theorem touchGo_append (xs ys : List String) (fs : Fs) :
    touchGo (xs ++ ys) fs =
      match touchGo xs fs with
      | (.ok _, fs') => touchGo ys fs'
      | (.error e, fs') => (.error e, fs') := by
  induction xs generalizing fs with
  | nil => simp [touchGo]
  | cons f rest ih =>
    cases hc : osFileCreate fs f with
    | error e => simp [touchGo, hc]
    | ok fs' => simp [touchGo, hc, ih]

/-- Sequential decomposition of the `rm` loop, for a fixed full argument
list `a` (the `-r` membership test always consults `a`). -/
theorem rmGo_append (a xs ys : List String) (fs : Fs) :
    rmGo a (xs ++ ys) fs =
      match rmGo a xs fs with
      | (.ok _, fs') => rmGo a ys fs'
      | (.error e, fs') => (.error e, fs') := by
  induction xs generalizing fs with
  | nil => simp [rmGo]
  | cons p rest ih =>
    by_cases hp : (p == "-r") = true
    · simp [rmGo, hp, ih]
    · cases hm : osMetadata fs p with
      | error e => simp [rmGo, hp, hm]
      | ok n =>
        cases n with
        | file c => simp [rmGo, hp, hm, FsNode.isDirNode, osRemoveFile, ih]
        | dir =>
          by_cases hr : "-r" ∈ a
          · simp [rmGo, hp, hm, FsNode.isDirNode, hr, ih]
          · cases hrd : osRemoveDir fs p with
            | error e => simp [rmGo, hp, hm, FsNode.isDirNode, hr, hrd]
            | ok fs' => simp [rmGo, hp, hm, FsNode.isDirNode, hr, hrd, ih]

/-- Sequential decomposition of the `cat` loop: output accumulates across a
successful prefix; a failure keeps the output printed so far. -/
theorem catGo_append (fs : Fs) (xs ys : List String) :
    catGo fs (xs ++ ys) =
      match catGo fs xs with
      | (.ok _, out) => ((catGo fs ys).1, out ++ (catGo fs ys).2)
      | (.error e, out) => (.error e, out) := by
  induction xs with
  | nil => simp [catGo]
  | cons f rest ih =>
    cases hm : osMetadata fs f with
    | error e => simp [catGo, hm]
    | ok n =>
      cases n with
      | dir => simp [catGo, hm, FsNode.isDirNode]
      | file c =>
        have hlf : fsLookup fs f = some (.file c) := osMetadata_ok hm
        have hrs : osReadToString fs f = .ok c := by simp [osReadToString, hlf]
        rcases hc : catGo fs rest with ⟨r, o⟩
        cases r with
        | ok u => simp [catGo, hm, FsNode.isDirNode, hrs, hc, ih]
        | error e => simp [catGo, hm, FsNode.isDirNode, hrs, hc, ih]

/-- C10: the multi-argument handlers `cat`, `mkdir`, `touch` and `rm`
process their arguments strictly left to right and stop at the first
failing argument, returning its structured error while keeping the side
effects (and, for `cat`, the output) already produced for earlier
arguments — no rollback.  Concretely: `mkdir ["a", "b"]` where creating
`"b"` fails still leaves `"a"` created, and `rm ["f", "g"]` where `"g"` is
missing still deletes `"f"`. -/
theorem first_failure_no_rollback :
    (∀ (fs : Fs) (xs ys : List String),
      mkdirGo (xs ++ ys) fs =
        match mkdirGo xs fs with
        | (.ok _, fs') => mkdirGo ys fs'
        | (.error e, fs') => (.error e, fs')) ∧
    (∀ (fs : Fs) (xs ys : List String),
      touchGo (xs ++ ys) fs =
        match touchGo xs fs with
        | (.ok _, fs') => touchGo ys fs'
        | (.error e, fs') => (.error e, fs')) ∧
    (∀ (a : List String) (fs : Fs) (xs ys : List String),
      rmGo a (xs ++ ys) fs =
        match rmGo a xs fs with
        | (.ok _, fs') => rmGo a ys fs'
        | (.error e, fs') => (.error e, fs')) ∧
    (∀ (fs : Fs) (xs ys : List String),
      catGo fs (xs ++ ys) =
        match catGo fs xs with
        | (.ok _, out) => ((catGo fs ys).1, out ++ (catGo fs ys).2)
        | (.error e, out) => (.error e, out)) ∧
    mkdir ["a", "b"] (⟨[("b", .file "z")], []⟩ : Fs) =
      (.error (.ioError (.alreadyExists "b")),
        (⟨[("a", .dir), ("b", .file "z")], []⟩ : Fs)) ∧
    rm ["f", "g"] (⟨[("f", .file "fx")], []⟩ : Fs) =
      (.error (.FileNotFound "g"), (⟨[], []⟩ : Fs)) :=
  ⟨fun fs xs ys => mkdirGo_append xs ys fs,
   fun fs xs ys => touchGo_append xs ys fs,
   fun a fs xs ys => rmGo_append a xs ys fs,
   fun fs xs ys => catGo_append fs xs ys,
   rfl, rfl⟩

end Ash
